import Mathlib

/-!
Verification of the License Expression Compatibility Engine
(app/services/compatibility: compat_utils, parser_spdx, matrix, evaluator,
checker, plus the legacy app/services/compatibility.py module).

Strings are embedded as List Char.  Python string operations used by the
code (strip, replace, substring containment, upper/lower) are embedded
below with Python semantics: replace rewrites all non-overlapping
occurrences scanning left to right; containment is the infix relation.
-/

set_option maxRecDepth 20000

abbrev Str : Type := List Char

/-- Association-list lookup embedding Python dict.get. -/
def lookupKV {α : Type} : List (Str × α) → Str → Option α
  | [], _ => none
  | (k, v) :: rest, key => if k = key then some v else lookupKV rest key

/-- Association-list insert-or-replace embedding Python dict assignment. -/
def dictSet {α : Type} : List (Str × α) → Str → α → List (Str × α)
  | [], k, v => [(k, v)]
  | (k', v') :: rest, k, v =>
    if k' = k then (k, v) :: rest else (k', v') :: dictSet rest k v

/-- Embedding of Python str.join with separator "; " (used by the checker). -/
def joinSemi : List Str → Str
  | [] => []
  | [x] => x
  | x :: y :: rest => x ++ ("; ".data) ++ joinSemi (y :: rest)

/-- Embedding of Python str.upper (character-wise). -/
def upper (s : Str) : Str := s.map Char.toUpper

/-- Embedding of Python str.lower (character-wise). -/
def lower (s : Str) : Str := s.map Char.toLower

/-- Embedding of Python str.strip(): drop leading and trailing whitespace. -/
def strip (s : Str) : Str :=
  ((s.dropWhile Char.isWhitespace).reverse.dropWhile Char.isWhitespace).reverse

/-- Fuel-indexed worker for Python str.replace.  The fuel is structural so
that the kernel can evaluate it; repl below instantiates the fuel with the
length of the string, which is always sufficient. -/
def replF (p r : Str) : Nat → Str → Str
  | 0, s => s
  | _ + 1, [] => []
  | f + 1, c :: cs =>
    if p ≠ [] ∧ p <+: (c :: cs) then r ++ replF p r f (cs.drop (p.length - 1))
    else c :: replF p r f cs

/-- Embedding of Python s.replace(p, r): rewrite every non-overlapping
occurrence of p in s by r, scanning left to right.  (The code never calls
replace with an empty pattern; for p = [] this returns s unchanged.) -/
def repl (p r s : Str) : Str := replF p r s.length s

/-- Alias table of compat_utils._SYNONYMS (and compatibility._SYNONYMS):
deprecated "+"-spellings mapped to canonical -or-later forms. -/
def synLookup (s : Str) : Str :=
  if s = ("GPL-3.0+".data) then ("GPL-3.0-or-later".data)
  else if s = ("GPL-2.0+".data) then ("GPL-2.0-or-later".data)
  else if s = ("LGPL-3.0+".data) then ("LGPL-3.0-or-later".data)
  else if s = ("LGPL-2.1+".data) then ("LGPL-2.1-or-later".data)
  else s

/-- Embedding of compat_utils.normalize_symbol (identical to the legacy
compatibility._normalize_symbol): trim, canonicalize the keyword "with",
rewrite "+" to "-or-later" unless already present, then apply the alias
table. -/
def normalize_symbol (sym : Str) : Str :=
  if sym = [] then sym
  else
    let s0 := strip sym
    let s1 := if (" with ".data) <:+: s0 then repl (" with ".data) (" WITH ".data) s0 else s0
    let s2 := if (" With ".data) <:+: s1 then repl (" With ".data) (" WITH ".data) s1 else s1
    let s3 := if (" with".data) <:+: s2 ∧ ¬ (" WITH".data) <:+: s2
              then repl (" with".data) (" WITH".data) s2 else s2
    let s4 := if ("+".data) <:+: s3 ∧ ¬ ("-or-later".data) <:+: s3
              then repl ("+".data) ("-or-later".data) s3 else s3
    synLookup s4

/-!
Expression AST and the SPDX sub-grammar from parser_spdx.py.

Python represents a missing expression as None and allows None children
inside And/Or (the parser builds them from Optional results); the domain
Optional[Node] is embedded as the single inductive type Node with a null
constructor, which keeps all recursion structural.
-/

inductive Node : Type where
  | null : Node
  | leaf (value : Str) : Node
  | and_ (left right : Node) : Node
  | or_ (left right : Node) : Node
  deriving DecidableEq

/-- Character-scanning phase of parser_spdx._tokenize: split on parentheses
and whitespace, accumulating a buffer. -/
def tokenizeAux : Str → Str → List Str
  | [], buf => if buf = [] then [] else [buf]
  | c :: cs, buf =>
    if c = '(' ∨ c = ')' then
      (if buf = [] then [] else [buf]) ++ [[c]] ++ tokenizeAux cs []
    else if c.isWhitespace then
      (if buf = [] then [] else [buf]) ++ tokenizeAux cs []
    else tokenizeAux cs (buf ++ [c])

/-- Merge phase of parser_spdx._tokenize: any triple t WITH u (with at
least three tokens remaining) is combined into the single token
"t WITH u". -/
def withMerge : List Str → List Str
  | t :: u :: v :: rest =>
    if upper u = ("WITH".data) then (t ++ (" WITH ".data) ++ v) :: withMerge rest
    else t :: withMerge (u :: v :: rest)
  | l => l

/-- Embedding of parser_spdx._tokenize. -/
def tokenize (expr : Str) : List Str :=
  if expr = [] then [] else withMerge (tokenizeAux (strip expr) [])

/-!
The recursive-descent functions parse_primary / parse_and / parse_or of
parser_spdx.parse_spdx.  Python uses a shared mutable index; here each
function takes the remaining tokens and returns the node together with the
unconsumed tokens.  A structural fuel argument makes the definitions
kernel-evaluable; parse_tokens instantiates it with a bound that is always
sufficient (every recursive call either consumes a token or moves to the
next grammar level, of which there are four).
-/

mutual

def parsePrimary : Nat → List Str → Node × List Str
  | 0, ts => (.null, ts)
  | _ + 1, [] => (.null, [])
  | f + 1, t :: rest =>
    if t = ("(".data) then
      let res := parseOr f rest
      match res.2 with
      | r :: rest2 => if r = (")".data) then (res.1, rest2) else (res.1, res.2)
      | [] => (res.1, [])
    else (.leaf (normalize_symbol t), rest)

def parseAnd : Nat → List Str → Node × List Str
  | 0, ts => (.null, ts)
  | f + 1, ts =>
    let res := parsePrimary f ts
    parseAndLoop f res.1 res.2

def parseAndLoop : Nat → Node → List Str → Node × List Str
  | 0, left, ts => (left, ts)
  | _ + 1, left, [] => (left, [])
  | f + 1, left, t :: rest =>
    if upper t = ("AND".data) then
      let res := parsePrimary f rest
      parseAndLoop f (.and_ left res.1) res.2
    else (left, t :: rest)

def parseOr : Nat → List Str → Node × List Str
  | 0, ts => (.null, ts)
  | f + 1, ts =>
    let res := parseAnd f ts
    parseOrLoop f res.1 res.2

def parseOrLoop : Nat → Node → List Str → Node × List Str
  | 0, left, ts => (left, ts)
  | _ + 1, left, [] => (left, [])
  | f + 1, left, t :: rest =>
    if upper t = ("OR".data) then
      let res := parseAnd f rest
      parseOrLoop f (.or_ left res.1) res.2
    else (left, t :: rest)

end

/-- Token-level part of parser_spdx.parse_spdx: empty token list gives the
null expression, otherwise the or-level entry point is run and any
unconsumed trailing tokens are discarded. -/
def parse_tokens (tokens : List Str) : Node :=
  if tokens = [] then .null
  else (parseOr (4 * tokens.length + 4) tokens).1

/-- Embedding of parser_spdx.parse_spdx. -/
def parse_spdx (expr : Str) : Node := parse_tokens (tokenize expr)

/-!
Verdict algebra.  The code represents the tri-state verdict as the strings
"yes" | "no" | "conditional" | "unknown" (type alias Tri in
compatibility.py).  Verdict below is the spec-side enumeration used to
state truth-table claims; verdictTri maps it to the code's strings.
-/

inductive Verdict : Type where
  | yes | no | conditional | unknown
  deriving DecidableEq

def verdictTri : Verdict → Str
  | .yes => ("yes".data)
  | .no => ("no".data)
  | .conditional => ("conditional".data)
  | .unknown => ("unknown".data)

/-- Spec AND table (section 4.4): any No poisons, Yes only from Yes-Yes,
everything else Conditional. -/
def specAndTable : Verdict → Verdict → Verdict
  | .no, _ => .no
  | _, .no => .no
  | .yes, .yes => .yes
  | _, _ => .conditional

/-- Spec OR table (section 4.4): any Yes rescues, No only from No-No,
everything else Conditional. -/
def specOrTable : Verdict → Verdict → Verdict
  | .yes, _ => .yes
  | _, .yes => .yes
  | .no, .no => .no
  | _, _ => .conditional

/-- Embedding of compatibility._combine_and (lines 254-261). -/
def _combine_and (a b : Str) : Str :=
  if a = ("no".data) ∨ b = ("no".data) then ("no".data)
  else if a = ("yes".data) ∧ b = ("yes".data) then ("yes".data)
  else ("conditional".data)

/-- Embedding of compatibility._combine_or (lines 264-270). -/
def _combine_or (a b : Str) : Str :=
  if a = ("yes".data) ∨ b = ("yes".data) then ("yes".data)
  else if a = ("no".data) ∧ b = ("no".data) then ("no".data)
  else ("conditional".data)

/-- Tokens that behave as plain license identifiers for the grammar:
not a parenthesis and not an operator keyword. -/
abbrev goodTok (t : Str) : Prop :=
  t ≠ ("(".data) ∧ t ≠ (")".data) ∧ upper t ≠ ("AND".data) ∧ upper t ≠ ("OR".data)

/-!
Compatibility-matrix loading (matrix.py) and the legacy loader
(compatibility._load_osadl_matrix).  The JSON value already parsed from
the resource file is embedded as the inductive J below (numbers/booleans
do not occur in any matrix shape the code distinguishes, so they are not
modelled); the filesystem read itself is I/O and is represented by the
Option J argument: none stands for a missing or unreadable resource.
-/

inductive J : Type where
  | null : J
  | str (s : Str) : J
  | arr (items : List J) : J
  | obj (fields : List (Str × J)) : J

/-- Python truthiness for the JSON values above (None, "", [] and an empty
dict are falsy). -/
def jTruthy : J → Bool
  | .null => false
  | .str s => !s.isEmpty
  | .arr l => !l.isEmpty
  | .obj l => !l.isEmpty

abbrev Row : Type := List (Str × Str)

abbrev CompatMatrix : Type := List (Str × Row)

/-- Embedding of matrix._coerce_status: strip and lowercase, then map
"yes"/"same" to yes, "no" to no, "conditional" to conditional, anything
else (including non-strings) to "unknown". -/
def _coerce_status (status_raw : Option J) : Str :=
  match status_raw with
  | some (.str s) =>
    let t := lower (strip s)
    if t = ("yes".data) ∨ t = ("same".data) then ("yes".data)
    else if t = ("no".data) then ("no".data)
    else if t = ("conditional".data) then ("conditional".data)
    else ("unknown".data)
  | _ => ("unknown".data)

/-- Inner loop of the shape-(a) branch of load_professional_matrix: every
coerced status (including "unknown") passes the membership test and is
stored. -/
def rowA : Row → List (Str × J) → Row
  | row, [] => row
  | row, (k, v) :: rest =>
    let coerced := _coerce_status (some v)
    if coerced = ("yes".data) ∨ coerced = ("no".data) ∨ coerced = ("conditional".data)
        ∨ coerced = ("unknown".data)
    then rowA (dictSet row (normalize_symbol k) coerced) rest
    else rowA row rest

/-- Outer loop of the shape-(a) branch: rows that are not dicts are
skipped. -/
def shapeA : CompatMatrix → List (Str × J) → CompatMatrix
  | acc, [] => acc
  | acc, (main, rowJ) :: rest =>
    match rowJ with
    | .obj rf => shapeA (dictSet acc (normalize_symbol main) (rowA [] rf)) rest
    | _ => shapeA acc rest

/-- Embedding of comp.get("compatibility") or comp.get("status"): the
first value if truthy, otherwise the second. -/
def statusOf (cf : List (Str × J)) : Option J :=
  match lookupKV cf ("compatibility".data) with
  | some av => if jTruthy av then some av else lookupKV cf ("status".data)
  | none => lookupKV cf ("status".data)

/-- Inner loop of the shape-(b)/(c) branches.  The Option result models
the try/except of load_professional_matrix: none stands for the exception
raised when a truthy non-string name reaches normalize_symbol. -/
def rowB : Row → List J → Option Row
  | row, [] => some row
  | row, comp :: rest =>
    match comp with
    | .obj cf =>
      let v := _coerce_status (statusOf cf)
      match lookupKV cf ("name".data) with
      | none => rowB row rest
      | some dj =>
        if jTruthy dj then
          match dj with
          | .str ds => rowB (dictSet row (normalize_symbol ds) v) rest
          | _ => none
        else rowB row rest
    | _ => rowB row rest

/-- Outer loop of the shape-(b)/(c) branches of load_professional_matrix. -/
def entriesB : CompatMatrix → List J → Option CompatMatrix
  | acc, [] => some acc
  | acc, entry :: rest =>
    match entry with
    | .obj f =>
      match lookupKV f ("name".data) with
      | none => entriesB acc rest
      | some mj =>
        if jTruthy mj then
          match (lookupKV f ("compatibilities".data)).getD (J.arr []) with
          | .arr comps =>
            match mj with
            | .str mainS =>
              match rowB [] comps with
              | some row => entriesB (dictSet acc (normalize_symbol mainS) row) rest
              | none => none
            | _ => none
          | _ => entriesB acc rest
        else entriesB acc rest
    | _ => entriesB acc rest

/-- Embedding of matrix.load_professional_matrix: tolerate the three
legacy shapes; a missing/empty/unrecognized resource or an internal
exception yields the empty matrix (there is no built-in fallback table in
this loader). -/
def load_professional_matrix (data : Option J) : CompatMatrix :=
  match data with
  | none => []
  | some d =>
    if jTruthy d = false then []
    else
      match d with
      | .obj fields =>
        match lookupKV fields ("matrix".data) with
        | some (.obj m) =>
          let n := shapeA [] m
          if n = [] then [] else n
        | _ =>
          match lookupKV fields ("licenses".data) with
          | some (.arr entries) =>
            match entriesB [] entries with
            | some n => if n = [] then [] else n
            | none => []
          | _ => []
      | .arr items =>
        match entriesB [] items with
        | some n => if n = [] then [] else n
        | none => []
      | _ => []

/-- Binary fallback table _FALLBACK_BINARY_MATRIX of compatibility.py. -/
def fallbackBinary : List (Str × List Str) := [
  (("MIT".data), [("MIT".data), ("Apache-2.0".data), ("BSD-2-Clause".data), ("BSD-3-Clause".data)]),
  (("Apache-2.0".data), [("Apache-2.0".data), ("MIT".data), ("BSD-2-Clause".data), ("BSD-3-Clause".data)]),
  (("BSD-3-Clause".data), [("MIT".data), ("Apache-2.0".data), ("BSD-2-Clause".data), ("BSD-3-Clause".data)]),
  (("BSD-2-Clause".data), [("MIT".data), ("Apache-2.0".data), ("BSD-2-Clause".data), ("BSD-3-Clause".data)]),
  (("GPL-3.0-only".data), [("GPL-3.0-only".data), ("GPL-3.0-or-later".data)]),
  (("GPL-3.0-or-later".data), [("GPL-3.0-only".data), ("GPL-3.0-or-later".data)])]

/-- Set of all symbols occurring in the binary fallback table.  Python
builds a set (unordered); the row contents produced below do not depend on
the enumeration order, so a deduplicated list is used. -/
def allSyms : List Str :=
  ((fallbackBinary.map (fun mv => mv.2)).flatten ++ fallbackBinary.map (fun mv => mv.1)).dedup

/-- Tri-state fallback built by _load_osadl_matrix from the binary table:
"yes" for the allowed symbols of each row, "no" for every other known
symbol. -/
def osadlFallback : CompatMatrix :=
  fallbackBinary.map (fun mv =>
    (normalize_symbol mv.1,
     allSyms.map (fun sym =>
       (normalize_symbol sym, if sym ∈ mv.2 then ("yes".data) else ("no".data)))))

/-- Inner loop of the JSON branch of _load_osadl_matrix.  The stored key
is _normalize_symbol(main_n) (the source normalizes the already-normalized
key a second time); a key miss there is Python's KeyError, caught by the
surrounding except and modelled as none. -/
def osadlRow : CompatMatrix → Str → List (Str × J) → Option CompatMatrix
  | acc, _, [] => some acc
  | acc, main_n, (k, v) :: rest =>
    match v with
    | .str vs =>
      if vs = ("yes".data) ∨ vs = ("no".data) ∨ vs = ("conditional".data) then
        let tgt := normalize_symbol main_n
        match lookupKV acc tgt with
        | none => none
        | some row => osadlRow (dictSet acc tgt (dictSet row (normalize_symbol k) vs)) main_n rest
      else osadlRow acc main_n rest
    | _ => osadlRow acc main_n rest

/-- Outer loop of the JSON branch of _load_osadl_matrix. -/
def osadlRows : CompatMatrix → List (Str × J) → Option CompatMatrix
  | acc, [] => some acc
  | acc, (main, rowJ) :: rest =>
    match rowJ with
    | .obj rf =>
      let main_n := normalize_symbol main
      match osadlRow (dictSet acc main_n []) main_n rf with
      | none => none
      | some acc2 => osadlRows acc2 rest
    | _ => osadlRows acc rest

/-- Embedding of compatibility._load_osadl_matrix: load the JSON matrix if
available and valid, otherwise (missing file, invalid shape, exception, or
an empty normalization result) fall back to the built-in tri-state table. -/
def _load_osadl_matrix (data : Option J) : CompatMatrix :=
  let viaJson : Option CompatMatrix :=
    match data with
    | some (.obj fields) =>
      match lookupKV fields ("matrix".data) with
      | some (.obj m) =>
        if m.isEmpty then none
        else
          match osadlRows [] m with
          | some n => if n = [] then none else some n
          | none => none
      | _ => none
    | _ => none
  match viaJson with
  | some n => n
  | none => osadlFallback

/-!
Evaluator.  The module app/services/compatibility/evaluator.py is not
present under src (only its import in checker.py, its unit tests and the
package docstring are), so the definitions in the namespace evaluator
below are modelled from the spec, sections 4.2 and 4.4.  The module-level
matrix obtained through get_matrix() is passed explicitly as the first
argument, following the dependency-injection reading the spec gives for
the one-time-loaded matrix (section 9).
-/

namespace evaluator

/-- Modelled from the spec: section 4.2 lookup semantics of the missing
evaluator._lookup_status — a lookup miss (reference row absent or falsy,
or dependency absent under a present row) gives "unknown", never an
error; only the three stored judgment strings are accepted as verdicts. -/
def _lookup_status (m : CompatMatrix) (main_license dep_license : Str) : Str :=
  match lookupKV m main_license with
  | none => ("unknown".data)
  | some row =>
    if row = [] then ("unknown".data)
    else
      match lookupKV row dep_license with
      | some st =>
        if st = ("yes".data) ∨ st = ("no".data) ∨ st = ("conditional".data) then st
        else ("unknown".data)
      | none => ("unknown".data)

/-- Modelled from the spec: the AND table of section 4.4 for the missing
evaluator._combine_and (same table as the legacy _combine_and). -/
def _combine_and (a b : Str) : Str :=
  if a = ("no".data) ∨ b = ("no".data) then ("no".data)
  else if a = ("yes".data) ∧ b = ("yes".data) then ("yes".data)
  else ("conditional".data)

/-- Modelled from the spec: the OR table of section 4.4 for the missing
evaluator._combine_or (same table as the legacy _combine_or). -/
def _combine_or (a b : Str) : Str :=
  if a = ("yes".data) ∨ b = ("yes".data) then ("yes".data)
  else if a = ("no".data) ∧ b = ("no".data) then ("no".data)
  else ("conditional".data)

end evaluator

/-- Leaf symbols reachable in a subtree, left to right (used by the
cross-compatibility check of the And case). -/
def collectLeaves : Node → List Str
  | .null => []
  | .leaf v => [v]
  | .and_ l r => collectLeaves l ++ collectLeaves r
  | .or_ l r => collectLeaves l ++ collectLeaves r

/-- First-occurrence split: some (before, after) when p occurs in s (the
occurrence removed), none otherwise.  Used to detach a WITH exception
clause from its base symbol. -/
def splitOnFirst (p : Str) : Str → Option (Str × Str)
  | [] => if p = [] then some ([], []) else none
  | c :: cs =>
    if p <+: (c :: cs) then some ([], (c :: cs).drop p.length)
    else (splitOnFirst p cs).map (fun bp => (c :: bp.1, bp.2))

namespace evaluator

/-- Modelled from the spec: section 4.4 evaluation of the missing
evaluator.eval_node.  null gives Unknown with an explanatory trace line; a
Leaf is looked up with any WITH exception clause stripped from the symbol,
the exception never upgrading the verdict (a No base verdict stays No and
the trace notes that the exception presence requires manual verification;
otherwise the trace notes the detected exception); And combines both
sub-verdicts with the AND table and appends one cross-compatibility trace
line per (left-leaf, right-leaf) pair; Or combines with the OR table and
performs no cross-check.  Trace lines are appended depth-first, left to
right, children before the parent combination line. -/
def eval_node (m : CompatMatrix) (main_license : Str) : Node → Str × List Str
  | .null => (("unknown".data), [("missing or unrecognized expression".data)])
  | .leaf v =>
    match splitOnFirst (" WITH ".data) v with
    | none =>
      let st := _lookup_status m main_license v
      (st, [v ++ (" → ".data) ++ st ++ (" with respect to ".data) ++ main_license])
    | some bp =>
      let st := _lookup_status m main_license bp.1
      if st = ("no".data) then
        (st, [bp.1 ++ (" → ".data) ++ st ++ (" with respect to ".data) ++ main_license
              ++ ("; Note: exception presence requires manual verification".data)])
      else
        (st, [bp.1 ++ (" → ".data) ++ st ++ (" with respect to ".data) ++ main_license
              ++ ("; Exception detected".data)])
  | .and_ l r =>
    let lres := eval_node m main_license l
    let rres := eval_node m main_license r
    let combined := _combine_and lres.1 rres.1
    let cross := ((collectLeaves l).map (fun x => (collectLeaves r).map (fun y =>
      ("Cross compatibility: ".data) ++ x ++ (" vs ".data) ++ y ++ (" → ".data)
        ++ _lookup_status m x y))).flatten
    (combined, lres.2 ++ rres.2 ++ cross ++ [("AND ⇒ ".data) ++ combined])
  | .or_ l r =>
    let lres := eval_node m main_license l
    let rres := eval_node m main_license r
    let combined := _combine_or lres.1 rres.1
    (combined, lres.2 ++ rres.2 ++ [("OR ⇒ ".data) ++ combined])

end evaluator

/-- Issue record produced by the checker for each file. -/
structure Issue : Type where
  file_path : Str
  detected_license : Str
  compatible : Bool
  reason : Str
  deriving DecidableEq

/-- Embedding of checker.check_compatibility.  The module-level matrix
(get_matrix()) is passed explicitly; files are an ordered list of
(path, expression) pairs, matching the insertion-ordered dict. -/
def check_compatibility (m : CompatMatrix) (main_license : Str)
    (file_licenses : List (Str × Str)) : Str × List Issue :=
  let main_license_n := normalize_symbol main_license
  if main_license_n = [] ∨ main_license_n = ("UNKNOWN".data)
      ∨ main_license_n = ("NOASSERTION".data) ∨ main_license_n = ("NONE".data) then
    ((if main_license = [] then ("UNKNOWN".data) else main_license),
     file_licenses.map (fun fe =>
       ⟨fe.1, fe.2, false,
        ("Main license not found or invalid (UNKNOWN/NOASSERTION/NONE)".data)⟩))
  else if m = [] ∨ lookupKV m main_license_n = none then
    (main_license_n,
     file_licenses.map (fun fe =>
       ⟨fe.1, fe.2, false, ("Matrix not available or main license not in matric".data)⟩))
  else
    (main_license_n,
     file_licenses.map (fun fe =>
       let expr := strip fe.2
       let node := parse_spdx expr
       let res := evaluator.eval_node m main_license_n node
       if res.1 = ("yes".data) then ⟨fe.1, expr, true, joinSemi res.2⟩
       else if res.1 = ("no".data) then ⟨fe.1, expr, false, joinSemi res.2⟩
       else ⟨fe.1, expr, false,
         joinSemi res.2 ++ ("; Esito: ".data)
           ++ (if res.1 = ("conditional".data) then ("conditional".data) else ("unknown".data))
           ++ (". Manual compliace verification required.".data)⟩))

/-- Embedding of the legacy compatibility._lookup_status (lines 241-251):
a falsy row gives "unknown"; the dependency is tried under three candidate
keys (raw, normalized, stripped) and only the three judgment strings are
accepted. -/
def _lookup_status (m : CompatMatrix) (main_license dep_license : Str) : Str :=
  match lookupKV m main_license with
  | none => ("unknown".data)
  | some row =>
    if row = [] then ("unknown".data)
    else
      let tryKey := fun (c : Str) =>
        match lookupKV row c with
        | some st =>
          if st = ("yes".data) ∨ st = ("no".data) ∨ st = ("conditional".data) then some st
          else none
        | none => none
      match tryKey dep_license with
      | some st => st
      | none =>
        match tryKey (normalize_symbol dep_license) with
        | some st => st
        | none =>
          match tryKey (strip dep_license) with
          | some st => st
          | none => ("unknown".data)

/-- Permissive licenses of the built-in fallback table. -/
def permissives : List Str :=
  [("MIT".data), ("Apache-2.0".data), ("BSD-2-Clause".data), ("BSD-3-Clause".data)]

/-- Shape-(b) matrix resource holding one self-pair with status "Same". -/
def jSameSelf : J :=
  .arr [.obj [(("name".data), .str ("A".data)),
              (("compatibilities".data),
               .arr [.obj [(("name".data), .str ("A".data)),
                           (("compatibility".data), .str ("Same".data))]])]]

/-- Shape-(b) matrix resource holding one pair with the unrecognized
status "Maybe". -/
def jWeird : J :=
  .arr [.obj [(("name".data), .str ("A".data)),
              (("compatibilities".data),
               .arr [.obj [(("name".data), .str ("B".data)),
                           (("compatibility".data), .str ("Maybe".data))]])]]

/-- Stage 1 of normalize_symbol: the lowercase " with " rewrite. -/
def stageW1 (s : Str) : Str :=
  if (" with ".data) <:+: s then repl (" with ".data) (" WITH ".data) s else s

/-- Stage 2 of normalize_symbol: the capitalized " With " rewrite. -/
def stageW2 (s : Str) : Str :=
  if (" With ".data) <:+: s then repl (" With ".data) (" WITH ".data) s else s

/-- Stage 3 of normalize_symbol: the space-less " with" rewrite, guarded by
the absence of " WITH". -/
def stageW3 (s : Str) : Str :=
  if (" with".data) <:+: s ∧ ¬ (" WITH".data) <:+: s
  then repl (" with".data) (" WITH".data) s else s

/-- Stage 4 of normalize_symbol: the "+" to "-or-later" rewrite. -/
def stageP (s : Str) : Str :=
  if ("+".data) <:+: s ∧ ¬ ("-or-later".data) <:+: s
  then repl ("+".data) ("-or-later".data) s else s

/-- Strings whose first and last characters (when present) are not
whitespace; exactly the strings fixed by strip. -/
def NiceEnds (l : Str) : Prop :=
  (∀ c, l.head? = some c → c.isWhitespace = false) ∧
  (∀ c, l.getLast? = some c → c.isWhitespace = false)

/-! Theorems. -/

theorem replF_congr (p r : Str) :
    ∀ (f₁ f₂ : Nat) (s : Str), s.length ≤ f₁ → s.length ≤ f₂ →
      replF p r f₁ s = replF p r f₂ s := by
  intro f₁
  induction f₁ with
  | zero =>
    intro f₂ s h₁ _
    have hs : s = [] := List.length_eq_zero.mp (Nat.le_zero.mp h₁)
    subst hs
    cases f₂ <;> rfl
  | succ f ih =>
    intro f₂ s h₁ h₂
    cases s with
    | nil => cases f₂ <;> rfl
    | cons c cs =>
      cases f₂ with
      | zero => exact absurd h₂ (by simp)
      | succ f₂' =>
        simp only [replF]
        by_cases hm : p ≠ [] ∧ p <+: (c :: cs)
        · rw [if_pos hm, if_pos hm]
          have hd : (cs.drop (p.length - 1)).length ≤ cs.length := by
            simp only [List.length_drop]; omega
          have hc : cs.length + 1 ≤ f + 1 := h₁
          have hc₂ : cs.length + 1 ≤ f₂' + 1 := h₂
          rw [ih f₂' _ (by omega) (by omega)]
        · rw [if_neg hm, if_neg hm]
          have hc : cs.length + 1 ≤ f + 1 := h₁
          have hc₂ : cs.length + 1 ≤ f₂' + 1 := h₂
          rw [ih f₂' _ (by omega) (by omega)]

theorem repl_nil (p r : Str) : repl p r [] = [] := rfl

theorem repl_cons (p r : Str) (c : Char) (cs : Str) :
    repl p r (c :: cs) =
      if p ≠ [] ∧ p <+: (c :: cs) then r ++ repl p r (cs.drop (p.length - 1))
      else c :: repl p r cs := by
  show replF p r (cs.length + 1) (c :: cs) = _
  simp only [replF]
  by_cases hm : p ≠ [] ∧ p <+: (c :: cs)
  · rw [if_pos hm, if_pos hm]
    unfold repl
    rw [replF_congr p r cs.length (cs.drop (p.length - 1)).length _
      (by simp only [List.length_drop]; omega) (le_refl _)]
  · rw [if_neg hm, if_neg hm]
    unfold repl
    rw [replF_congr p r cs.length cs.length cs (le_refl _) (le_refl _)]

example : normalize_symbol ("GPL-3.0+".data) = ("GPL-3.0-or-later".data) := by decide

example : normalize_symbol ("  MIT ".data) = ("MIT".data) := by decide

example : normalize_symbol ("GPL-2.0 with Classpath".data) = ("GPL-2.0 WITH Classpath".data) := by decide

example : normalize_symbol ("a with with b".data) = ("a WITH with b".data) := by decide

example : normalize_symbol ("a WITH with b".data) = ("a WITH WITH b".data) := by decide

example : parse_spdx ("MIT OR Apache-2.0 AND GPL-3.0".data) =
    .or_ (.leaf ("MIT".data)) (.and_ (.leaf ("Apache-2.0".data)) (.leaf ("GPL-3.0".data))) := by decide

example : parse_spdx ("A AND B AND C".data) =
    .and_ (.and_ (.leaf ("A".data)) (.leaf ("B".data))) (.leaf ("C".data)) := by decide

example : parse_spdx ("(A OR B".data) =
    .or_ (.leaf ("A".data)) (.leaf ("B".data)) := by decide

example : parse_spdx ("MIT GPL-3.0".data) = .leaf ("MIT".data) := by decide

example : parse_spdx ("".data) = .null := by decide

example : parse_spdx ("   ".data) = .null := by decide

example : parse_spdx ("GPL-2.0 with Classpath AND MIT".data) =
    .and_ (.leaf ("GPL-2.0 WITH Classpath".data)) (.leaf ("MIT".data)) := by decide

example : parse_spdx ("A AND (B OR C)".data) =
    .and_ (.leaf ("A".data)) (.or_ (.leaf ("B".data)) (.leaf ("C".data))) := by decide

/-- C1: for every pair of the four Verdict values, _combine_and returns
exactly the value of the spec's AND table and _combine_or returns exactly
the value of the spec's OR table (all 16 pairs for each operator). -/
theorem claim_C1 : ∀ a b : Verdict,
    _combine_and (verdictTri a) (verdictTri b) = verdictTri (specAndTable a b) ∧
    _combine_or (verdictTri a) (verdictTri b) = verdictTri (specOrTable a b) := by
  intro a b
  cases a <;> cases b <;> exact ⟨by decide, by decide⟩

/-- C7: the parser implements the grammar with AND binding tighter than OR
and both operators left-associative: A OR B AND C parses as
Or(A, And(B, C)); A AND B AND C and A OR B OR C parse left-nested; a
parenthesized group is parsed as a complete or-expression. -/
theorem claim_C7 (A B C : Str) (hA : goodTok A) (hB : goodTok B) (hC : goodTok C) :
    parse_tokens [A, ("OR".data), B, ("AND".data), C] =
      .or_ (.leaf (normalize_symbol A))
        (.and_ (.leaf (normalize_symbol B)) (.leaf (normalize_symbol C))) ∧
    parse_tokens [A, ("AND".data), B, ("AND".data), C] =
      .and_ (.and_ (.leaf (normalize_symbol A)) (.leaf (normalize_symbol B)))
        (.leaf (normalize_symbol C)) ∧
    parse_tokens [A, ("OR".data), B, ("OR".data), C] =
      .or_ (.or_ (.leaf (normalize_symbol A)) (.leaf (normalize_symbol B)))
        (.leaf (normalize_symbol C)) ∧
    parse_tokens [A, ("AND".data), ("(".data), B, ("OR".data), C, (")".data)] =
      .and_ (.leaf (normalize_symbol A))
        (.or_ (.leaf (normalize_symbol B)) (.leaf (normalize_symbol C))) := by
  obtain ⟨hA1, hA2, hA3, hA4⟩ := hA
  obtain ⟨hB1, hB2, hB3, hB4⟩ := hB
  obtain ⟨hC1, hC2, hC3, hC4⟩ := hC
  have e1 : upper ("OR".data) = ("OR".data) := by decide
  have e2 : upper ("AND".data) = ("AND".data) := by decide
  have e3 : upper ("OR".data) ≠ ("AND".data) := by decide
  have e4 : upper ("AND".data) ≠ ("OR".data) := by decide
  have e5 : upper (")".data) ≠ ("AND".data) := by decide
  have e6 : upper (")".data) ≠ ("OR".data) := by decide
  refine ⟨?_, ?_, ?_, ?_⟩ <;>
    simp [parse_tokens, parseOr, parseAnd, parseOrLoop, parseAndLoop, parsePrimary,
      hA1, hA3, hA4, hB1, hB3, hB4, hC1, hC3, hC4, e1, e2, e3, e4, e5, e6]

/-- C7 witness at concrete identifier tokens. -/
theorem claim_C7_witness :
    parse_tokens [("MIT".data), ("OR".data), ("Apache-2.0".data), ("AND".data), ("GPL-3.0".data)] =
      .or_ (.leaf ("MIT".data))
        (.and_ (.leaf ("Apache-2.0".data)) (.leaf ("GPL-3.0".data))) := by
  have h := (claim_C7 ("MIT".data) ("Apache-2.0".data) ("GPL-3.0".data)
    (by decide) (by decide) (by decide)).1
  have n1 : normalize_symbol ("MIT".data) = ("MIT".data) := by decide
  have n2 : normalize_symbol ("Apache-2.0".data) = ("Apache-2.0".data) := by decide
  have n3 : normalize_symbol ("GPL-3.0".data) = ("GPL-3.0".data) := by decide
  rw [n1, n2, n3] at h
  exact h

/-- C10: trailing tokens left over after a complete top-level
or-expression are silently discarded: a two-identifier stream with no
operator between them parses to just the leading leaf, and at string level
parse of "MIT GPL-3.0" returns only Leaf(MIT). -/
theorem claim_C10 (A X : Str) (hA : A ≠ ("(".data))
    (hX1 : upper X ≠ ("AND".data)) (hX2 : upper X ≠ ("OR".data)) :
    parse_tokens [A, X] = .leaf (normalize_symbol A) ∧
    parse_spdx ("MIT GPL-3.0".data) = .leaf ("MIT".data) := by
  constructor
  · simp [parse_tokens, parseOr, parseAnd, parseOrLoop, parseAndLoop, parsePrimary,
      hA, hX1, hX2]
  · decide

/-- C10 witness at concrete tokens MIT and GPL-3.0. -/
theorem claim_C10_witness :
    parse_tokens [("MIT".data), ("GPL-3.0".data)] = .leaf ("MIT".data) := by
  have h := (claim_C10 ("MIT".data) ("GPL-3.0".data)
    (by decide) (by decide) (by decide)).1
  have n1 : normalize_symbol ("MIT".data) = ("MIT".data) := by decide
  rw [n1] at h
  exact h

theorem infix_of_append_of_suffix (n x c : Str) (h : n <:+ c) : n <:+: x ++ c :=
  (h.trans (List.suffix_append x c)).isInfix

theorem splitOnFirst_of_isPrefix (p s : Str) (hp : p ≠ []) (h : p <+: s) :
    splitOnFirst p s = some ([], s.drop p.length) := by
  cases s with
  | nil => exact absurd (List.prefix_nil.mp h) hp
  | cons c cs => simp [splitOnFirst, h]

theorem splitOnFirst_cons_neg (p : Str) (c : Char) (cs : Str) (h : ¬ p <+: (c :: cs)) :
    splitOnFirst p (c :: cs) = (splitOnFirst p cs).map (fun bp => (c :: bp.1, bp.2)) := by
  simp [splitOnFirst, h]

/-- When the text before the junction contains no occurrence of " WITH "
(not even one overlapping the junction), splitOnFirst cuts exactly at the
junction. -/
theorem split_with_junction : ∀ (base exc : Str),
    ¬ (" WITH ".data) <:+: (base ++ (" WITH".data)) →
    splitOnFirst (" WITH ".data) (base ++ (" WITH ".data) ++ exc) = some (base, exc) := by
  intro base
  induction base with
  | nil =>
    intro exc _
    rw [List.nil_append, splitOnFirst_of_isPrefix _ _ (by decide)
      (List.prefix_append (" WITH ".data) exc), List.drop_left]
  | cons c bs ih =>
    intro exc h
    have hx : (c :: bs) ++ (" WITH ".data) ++ exc
        = ((c :: bs) ++ (" WITH".data)) ++ (' ' :: exc) := by
      have hw : (" WITH ".data) = (" WITH".data) ++ [' '] := by decide
      simp [hw]
    have hnp : ¬ (" WITH ".data) <+: ((c :: bs) ++ (" WITH ".data) ++ exc) := by
      intro hpre
      have hYpre : ((c :: bs) ++ (" WITH".data)) <+: ((c :: bs) ++ (" WITH ".data) ++ exc) := by
        rw [hx]; exact List.prefix_append _ _
      have hlen : (" WITH ".data).length ≤ ((c :: bs) ++ (" WITH".data)).length := by
        simp only [List.length_append, List.length_cons]
        omega
      exact h (List.prefix_of_prefix_length_le hpre hYpre hlen).isInfix
    have hcons : (c :: bs) ++ (" WITH ".data) ++ exc = c :: (bs ++ (" WITH ".data) ++ exc) := by
      simp
    rw [hcons] at hnp ⊢
    rw [splitOnFirst_cons_neg _ _ _ hnp]
    have hih : ¬ (" WITH ".data) <:+: (bs ++ (" WITH".data)) := by
      intro hin
      exact h (hin.trans ((bs ++ (" WITH".data)).suffix_cons c).isInfix)
    rw [ih exc hih]
    rfl

/-- C3: a Leaf whose symbol carries a WITH exception clause is evaluated
by looking up the base symbol with the clause stripped, and the exception
never upgrades the verdict: when the base verdict is No the result stays
No and the trace records that the exception presence requires manual
verification. -/
theorem claim_C3 (m : CompatMatrix) (ref base exc : Str)
    (h : ¬ (" WITH ".data) <:+: (base ++ (" WITH".data))) :
    (evaluator.eval_node m ref (.leaf (base ++ (" WITH ".data) ++ exc))).1
      = evaluator._lookup_status m ref base ∧
    (evaluator._lookup_status m ref base = ("no".data) →
      ∃ line ∈ (evaluator.eval_node m ref (.leaf (base ++ (" WITH ".data) ++ exc))).2,
        ("exception presence requires manual verification".data) <:+: line) := by
  have hs := split_with_junction base exc h
  constructor
  · simp only [evaluator.eval_node, hs]
    by_cases hno : evaluator._lookup_status m ref base = ("no".data) <;> simp [hno]
  · intro hno
    simp only [evaluator.eval_node, hs, hno]
    refine ⟨_, List.mem_singleton_self _, ?_⟩
    exact infix_of_append_of_suffix _ _ _ (by decide)

/-- C3 witness: a concrete matrix where the base symbol is incompatible. -/
theorem claim_C3_witness :
    (evaluator.eval_node [(("GPL-3.0".data), [(("Proprietary".data), ("no".data))])]
        ("GPL-3.0".data) (.leaf (("Proprietary".data) ++ (" WITH ".data) ++ ("Some-Exception".data)))).1
      = ("no".data) ∧
    ∃ line ∈ (evaluator.eval_node [(("GPL-3.0".data), [(("Proprietary".data), ("no".data))])]
        ("GPL-3.0".data) (.leaf (("Proprietary".data) ++ (" WITH ".data) ++ ("Some-Exception".data)))).2,
      ("exception presence requires manual verification".data) <:+: line := by
  have h := claim_C3 [(("GPL-3.0".data), [(("Proprietary".data), ("no".data))])]
    ("GPL-3.0".data) ("Proprietary".data) ("Some-Exception".data) (by decide)
  have hlk : evaluator._lookup_status [(("GPL-3.0".data), [(("Proprietary".data), ("no".data))])]
      ("GPL-3.0".data) ("Proprietary".data) = ("no".data) := by decide
  exact ⟨by rw [h.1, hlk], h.2 hlk⟩

theorem infix_of_eq_append (n t x : Str) (h : n ++ t = x) : n <:+: x :=
  ⟨[], t, by simpa using h⟩

/-- C2: evaluation of an And node combines the two sub-verdicts and in
addition performs the cross-compatibility check, probing the matrix for
every (left-leaf, right-leaf) pair and appending one trace line per pair;
in particular And(Or(Leaf(MIT), Leaf(Apache-2.0)), Leaf(GPL-3.0)) against
reference GPL-3.0 yields cross-compatibility trace lines for both
MIT-vs-GPL-3.0 and Apache-2.0-vs-GPL-3.0, whatever the loaded matrix. -/
theorem claim_C2 (m : CompatMatrix) :
    (∀ (main : Str) (l r : Node),
      evaluator.eval_node m main (.and_ l r)
        = (evaluator._combine_and (evaluator.eval_node m main l).1
             (evaluator.eval_node m main r).1,
           (evaluator.eval_node m main l).2 ++ (evaluator.eval_node m main r).2
             ++ ((collectLeaves l).map (fun x => (collectLeaves r).map (fun y =>
                 ("Cross compatibility: ".data) ++ x ++ (" vs ".data) ++ y ++ (" → ".data)
                   ++ evaluator._lookup_status m x y))).flatten
             ++ [("AND ⇒ ".data)
                 ++ evaluator._combine_and (evaluator.eval_node m main l).1
                     (evaluator.eval_node m main r).1])) ∧
    (∃ line ∈ (evaluator.eval_node m ("GPL-3.0".data)
        (.and_ (.or_ (.leaf ("MIT".data)) (.leaf ("Apache-2.0".data)))
          (.leaf ("GPL-3.0".data)))).2,
      ("Cross compatibility: MIT vs GPL-3.0".data) <:+: line) ∧
    (∃ line ∈ (evaluator.eval_node m ("GPL-3.0".data)
        (.and_ (.or_ (.leaf ("MIT".data)) (.leaf ("Apache-2.0".data)))
          (.leaf ("GPL-3.0".data)))).2,
      ("Cross compatibility: Apache-2.0 vs GPL-3.0".data) <:+: line) := by
  refine ⟨fun main l r => rfl, ?_, ?_⟩
  · refine ⟨("Cross compatibility: ".data) ++ ("MIT".data) ++ (" vs ".data) ++ ("GPL-3.0".data)
      ++ (" → ".data) ++ evaluator._lookup_status m ("MIT".data) ("GPL-3.0".data), ?_, ?_⟩
    · refine List.get?_mem (n := 4) ?_
      rfl
    · refine infix_of_eq_append _ ((" → ".data)
        ++ evaluator._lookup_status m ("MIT".data) ("GPL-3.0".data)) _ ?_
      simp [List.append_assoc]
  · refine ⟨("Cross compatibility: ".data) ++ ("Apache-2.0".data) ++ (" vs ".data)
      ++ ("GPL-3.0".data)
      ++ (" → ".data) ++ evaluator._lookup_status m ("Apache-2.0".data) ("GPL-3.0".data), ?_, ?_⟩
    · refine List.get?_mem (n := 5) ?_
      rfl
    · refine infix_of_eq_append _ ((" → ".data)
        ++ evaluator._lookup_status m ("Apache-2.0".data) ("GPL-3.0".data)) _ ?_
      simp [List.append_assoc]

/-- C5 counterexample: a shape-(b) entry whose status string is not one of
the recognized judgments is not discarded — the pair is stored with the
value "unknown", so an entry does exist for it in the loaded matrix. -/
theorem claim_C5_counterexample :
    load_professional_matrix (some jWeird) = [(("A".data), [(("B".data), ("unknown".data))])] ∧
    (lookupKV (load_professional_matrix (some jWeird)) ("A".data)).map
      (fun row => lookupKV row ("B".data)) = some (some ("unknown".data)) := by
  exact ⟨by decide, by decide⟩

/-- C5 (amended): the status mapping is "yes"/"same" to Yes, "no" to No,
"conditional" to Conditional, case-insensitively after trimming, so a
shape-(b) entry with status "Same" for a self-pair loads as Yes; any other
status string is stored as "unknown" rather than discarded, and the
lookup treats such a stored "unknown" exactly like an absent entry, so
Unknown still only arises at lookup time. -/
theorem claim_C5 :
    (∀ s : Str,
      ((lower (strip s) = ("yes".data) ∨ lower (strip s) = ("same".data)) →
        _coerce_status (some (.str s)) = ("yes".data)) ∧
      (lower (strip s) = ("no".data) → _coerce_status (some (.str s)) = ("no".data)) ∧
      (lower (strip s) = ("conditional".data) →
        _coerce_status (some (.str s)) = ("conditional".data)) ∧
      (¬ (lower (strip s) = ("yes".data) ∨ lower (strip s) = ("same".data)
          ∨ lower (strip s) = ("no".data) ∨ lower (strip s) = ("conditional".data)) →
        _coerce_status (some (.str s)) = ("unknown".data))) ∧
    load_professional_matrix (some jSameSelf) = [(("A".data), [(("A".data), ("yes".data))])] ∧
    load_professional_matrix (some jWeird) = [(("A".data), [(("B".data), ("unknown".data))])] ∧
    evaluator._lookup_status (load_professional_matrix (some jWeird)) ("A".data) ("B".data)
      = ("unknown".data) ∧
    evaluator._lookup_status (load_professional_matrix (some jWeird)) ("A".data) ("Z".data)
      = ("unknown".data) := by
  refine ⟨fun s => ⟨?_, ?_, ?_, ?_⟩, by decide, by decide, by decide, by decide⟩
  · intro h
    simp only [_coerce_status]
    rw [if_pos h]
  · intro h
    have h1 : ¬ (lower (strip s) = ("yes".data) ∨ lower (strip s) = ("same".data)) := by
      rw [h]; decide
    simp only [_coerce_status]
    rw [if_neg h1, if_pos h]
  · intro h
    have h1 : ¬ (lower (strip s) = ("yes".data) ∨ lower (strip s) = ("same".data)) := by
      rw [h]; decide
    have h2 : lower (strip s) ≠ ("no".data) := by rw [h]; decide
    simp only [_coerce_status]
    rw [if_neg h1, if_neg h2, if_pos h]
  · intro h
    have h1 : ¬ (lower (strip s) = ("yes".data) ∨ lower (strip s) = ("same".data)) :=
      fun hc => h (hc.elim Or.inl (fun hx => Or.inr (Or.inl hx)))
    have h2 : lower (strip s) ≠ ("no".data) := fun hc => h (Or.inr (Or.inr (Or.inl hc)))
    have h3 : lower (strip s) ≠ ("conditional".data) :=
      fun hc => h (Or.inr (Or.inr (Or.inr hc)))
    simp only [_coerce_status]
    rw [if_neg h1, if_neg h2, if_neg h3]

/-- C5 witness: the coercion evaluated at "Same" and at an unrecognized
status. -/
theorem claim_C5_witness :
    _coerce_status (some (.str ("Same".data))) = ("yes".data) ∧
    _coerce_status (some (.str ("Maybe".data))) = ("unknown".data) := by
  have h := claim_C5.1
  exact ⟨(h ("Same".data)).1 (by decide), (h ("Maybe".data)).2.2.2 (by decide)⟩

/-- C6 counterexample: on a missing resource the package loader
load_professional_matrix produces the empty matrix, not the (nonempty)
built-in fallback table. -/
theorem claim_C6_counterexample :
    load_professional_matrix none = [] ∧ osadlFallback ≠ [] := by
  exact ⟨rfl, by decide⟩

/-- C6 (amended): only the legacy loader _load_osadl_matrix falls back to
the built-in table on missing data (MIT, Apache-2.0, BSD-2-Clause and
BSD-3-Clause mutually Yes; the GPL-3.0 family self-compatible; others No),
while the package loader load_professional_matrix returns the empty matrix
instead; in both embeddings the condition is absorbed into a value, never
raised. -/
theorem claim_C6 :
    load_professional_matrix none = [] ∧
    _load_osadl_matrix none = osadlFallback ∧
    ((permissives.all fun x => permissives.all fun y =>
        _lookup_status osadlFallback x y == ("yes".data)) = true) ∧
    _lookup_status osadlFallback ("GPL-3.0-only".data) ("GPL-3.0-only".data) = ("yes".data) ∧
    _lookup_status osadlFallback ("GPL-3.0-only".data) ("GPL-3.0-or-later".data) = ("yes".data) ∧
    _lookup_status osadlFallback ("GPL-3.0-or-later".data) ("GPL-3.0-only".data) = ("yes".data) ∧
    _lookup_status osadlFallback ("GPL-3.0-or-later".data) ("GPL-3.0-or-later".data)
      = ("yes".data) ∧
    _lookup_status osadlFallback ("MIT".data) ("GPL-3.0-only".data) = ("no".data) := by
  refine ⟨rfl, rfl, by decide, by decide, by decide, by decide, by decide, by decide⟩

theorem dropWhile_all (p : Char → Bool) : ∀ l : Str, (∀ c ∈ l, p c) → l.dropWhile p = [] := by
  intro l h
  induction l with
  | nil => rfl
  | cons c cs ih =>
    rw [List.dropWhile_cons, if_pos (h c (by simp))]
    exact ih (fun d hd => h d (by simp [hd]))

theorem strip_all_ws (s : Str) (h : ∀ c ∈ s, c.isWhitespace) : strip s = [] := by
  have h1 : s.dropWhile Char.isWhitespace = [] := dropWhile_all _ s h
  simp [strip, h1]

/-- C8: parsing never raises on malformed input — an unmatched opening
parenthesis makes the parse stop at end of input and return the subtree
built so far (at token level for arbitrary identifier tokens, and at
string level for "(A OR B"); empty or whitespace-only input parses to the
null expression, which the evaluator maps to Unknown. -/
theorem claim_C8 :
    (∀ A B : Str, goodTok A → goodTok B →
      parse_tokens [("(".data), A, ("OR".data), B]
        = .or_ (.leaf (normalize_symbol A)) (.leaf (normalize_symbol B))) ∧
    parse_spdx ("(A OR B".data) = .or_ (.leaf ("A".data)) (.leaf ("B".data)) ∧
    (∀ s : Str, (∀ c ∈ s, c.isWhitespace) → parse_spdx s = .null) ∧
    (∀ (m : CompatMatrix) (main : Str),
      evaluator.eval_node m main .null
        = (("unknown".data), [("missing or unrecognized expression".data)])) := by
  refine ⟨?_, by decide, ?_, fun m main => rfl⟩
  · intro A B hA hB
    obtain ⟨hA1, hA2, hA3, hA4⟩ := hA
    obtain ⟨hB1, hB2, hB3, hB4⟩ := hB
    have e1 : upper ("OR".data) = ("OR".data) := by decide
    have e3 : upper ("OR".data) ≠ ("AND".data) := by decide
    simp [parse_tokens, parseOr, parseAnd, parseOrLoop, parseAndLoop, parsePrimary,
      hA1, hA3, hA4, hB1, hB3, hB4, e1, e3]
  · intro s h
    by_cases hs : s = []
    · rw [hs]; rfl
    · have h1 : strip s = [] := strip_all_ws s h
      simp [parse_spdx, tokenize, hs, h1, tokenizeAux, withMerge, parse_tokens]

/-- C8 witness at a concrete unmatched parenthesis and a whitespace-only
input. -/
theorem claim_C8_witness :
    parse_tokens [("(".data), ("A".data), ("OR".data), ("B".data)]
      = .or_ (.leaf ("A".data)) (.leaf ("B".data)) ∧
    parse_spdx ("   ".data) = .null := by
  constructor
  · have h := claim_C8.1 ("A".data) ("B".data) (by decide) (by decide)
    have n1 : normalize_symbol ("A".data) = ("A".data) := by decide
    have n2 : normalize_symbol ("B".data) = ("B".data) := by decide
    rw [n1, n2] at h
    exact h
  · exact claim_C8.2.2.1 ("   ".data) (by decide)

/-- C9 counterexample: for reference UNKNOWN the issue reason is
"Main license not found or invalid (UNKNOWN/NOASSERTION/NONE)", which does
not contain the substring "not detected" stated by the claim. -/
theorem claim_C9_counterexample :
    (check_compatibility [] ("UNKNOWN".data) [(("a.py".data), ("MIT".data))]).2
      = [⟨("a.py".data), ("MIT".data), false,
          ("Main license not found or invalid (UNKNOWN/NOASSERTION/NONE)".data)⟩] ∧
    ¬ ("not detected".data) <:+:
      ("Main license not found or invalid (UNKNOWN/NOASSERTION/NONE)".data) := by
  exact ⟨by decide, by decide⟩

/-- C9 (amended): for an empty reference or the sentinel UNKNOWN the
checker skips parsing and evaluation and returns one issue per input file
with compatible = false and the fixed reason
"Main license not found or invalid (UNKNOWN/NOASSERTION/NONE)", which
contains "not found" (not "not detected"). -/
theorem claim_C9 (m : CompatMatrix) (files : List (Str × Str)) :
    check_compatibility m ("UNKNOWN".data) files
      = (("UNKNOWN".data),
         files.map (fun fe => (⟨fe.1, fe.2, false,
           ("Main license not found or invalid (UNKNOWN/NOASSERTION/NONE)".data)⟩ : Issue))) ∧
    check_compatibility m [] files
      = (("UNKNOWN".data),
         files.map (fun fe => (⟨fe.1, fe.2, false,
           ("Main license not found or invalid (UNKNOWN/NOASSERTION/NONE)".data)⟩ : Issue))) ∧
    ("not found".data) <:+:
      ("Main license not found or invalid (UNKNOWN/NOASSERTION/NONE)".data) := by
  refine ⟨?_, ?_, by decide⟩
  · have hn : normalize_symbol ("UNKNOWN".data) = ("UNKNOWN".data) := by decide
    simp only [check_compatibility, hn]
    rw [if_pos (by decide), if_neg (by decide)]
  · have hn : normalize_symbol ([] : Str) = [] := rfl
    simp [check_compatibility, hn]

/-!
Toolkit for the idempotence analysis of normalize_symbol (claim C4).
-/

theorem infix_mem {n z : Str} (h : n <:+: z) {a : Char} (ha : a ∈ n) : a ∈ z := by
  obtain ⟨u, v, rfl⟩ := h
  simp [ha]

theorem infix_singleton_iff (a : Char) (l : Str) : [a] <:+: l ↔ a ∈ l := by
  constructor
  · intro h
    exact infix_mem h (by simp)
  · intro h
    obtain ⟨s, t, rfl⟩ := List.append_of_mem h
    exact ⟨s, t, by simp⟩

theorem last_mem : ∀ (z : Str) (c : Char), z.getLast? = some c → c ∈ z := by
  intro z
  induction z with
  | nil => intro c hc; simp at hc
  | cons a t ih =>
    intro c hc
    cases t with
    | nil => simp at hc; simp [hc]
    | cons b t' =>
      rw [List.getLast?_cons_cons] at hc
      exact List.mem_cons_of_mem a (ih c hc)

theorem pre_head {n z : Str} (hn : n ≠ []) (h : n <+: z) : z.head? = n.head? := by
  cases n with
  | nil => exact absurd rfl hn
  | cons a m =>
    cases z with
    | nil => exact absurd (List.prefix_nil.mp h) (by simp)
    | cons b t =>
      obtain ⟨hab, -⟩ := List.cons_prefix_cons.mp h
      simp [hab]

theorem suf_last {n z : Str} (hn : n ≠ []) (h : n <:+ z) : z.getLast? = n.getLast? := by
  obtain ⟨u, rfl⟩ := h
  exact List.getLast?_append_of_ne_nil u hn

theorem pre_of_append : ∀ (x : Str) {m y : Str}, m <+: x ++ y →
    m <+: x ∨ ∃ m₂, m = x ++ m₂ ∧ m₂ <+: y := by
  intro x
  induction x with
  | nil =>
    intro m y h
    exact Or.inr ⟨m, by simp, by simpa using h⟩
  | cons c x' ih =>
    intro m y h
    cases m with
    | nil => exact Or.inl (List.nil_prefix)
    | cons d m' =>
      rw [List.cons_append] at h
      obtain ⟨hdc, hm'⟩ := List.cons_prefix_cons.mp h
      rcases ih hm' with h1 | ⟨m₂, rfl, h₂⟩
      · exact Or.inl (by rw [hdc]; exact List.cons_prefix_cons.mpr ⟨rfl, h1⟩)
      · exact Or.inr ⟨m₂, by rw [hdc, List.cons_append], h₂⟩

theorem inf_append_split : ∀ (x : Str) {n y : Str}, n <:+: x ++ y →
    n <:+: x ∨ n <:+: y ∨
      ∃ n₁ n₂, n = n₁ ++ n₂ ∧ n₁ ≠ [] ∧ n₂ ≠ [] ∧ n₁ <:+ x ∧ n₂ <+: y := by
  intro x
  induction x with
  | nil =>
    intro n y h
    exact Or.inr (Or.inl (by simpa using h))
  | cons c x' ih =>
    intro n y h
    rw [List.cons_append] at h
    rcases List.infix_cons_iff.mp h with hp | hi
    · cases n with
      | nil => exact Or.inl List.nil_infix
      | cons d m' =>
        obtain ⟨hdc, hm'⟩ := List.cons_prefix_cons.mp hp
        rcases pre_of_append x' hm' with h1 | ⟨m₂, rfl, h₂⟩
        · exact Or.inl (by rw [hdc]; exact (List.cons_prefix_cons.mpr ⟨rfl, h1⟩).isInfix)
        · by_cases hm₂ : m₂ = []
          · subst hm₂
            refine Or.inl ?_
            rw [hdc]
            simp
          · refine Or.inr (Or.inr ⟨c :: x', m₂, ?_, by simp, hm₂, ?_, h₂⟩)
            · rw [hdc, List.cons_append]
            · exact List.suffix_refl _
    · rcases ih hi with h1 | h2 | ⟨n₁, n₂, rfl, hn₁, hn₂, hsuf, hpre⟩
      · exact Or.inl (List.infix_cons h1)
      · exact Or.inr (Or.inl h2)
      · refine Or.inr (Or.inr ⟨n₁, n₂, rfl, hn₁, hn₂, ?_, hpre⟩)
        obtain ⟨u, rfl⟩ := hsuf
        exact ⟨c :: u, by rw [List.cons_append]⟩

theorem normalize_symbol_stages (s : Str) (h : s ≠ []) :
    normalize_symbol s = synLookup (stageP (stageW3 (stageW2 (stageW1 (strip s))))) := by
  unfold normalize_symbol stageW1 stageW2 stageW3 stageP
  rw [if_neg h]

theorem repl_plus_cons (r : Str) (c : Char) (cs : Str) :
    repl ("+".data) r (c :: cs)
      = if c = '+' then r ++ repl ("+".data) r cs else c :: repl ("+".data) r cs := by
  by_cases hc : c = '+'
  · subst hc
    rw [repl_cons, if_pos ⟨by decide, List.cons_prefix_cons.mpr ⟨rfl, List.nil_prefix⟩⟩,
      if_pos rfl]
    have h0 : ("+".data).length - 1 = 0 := by decide
    rw [h0, List.drop_zero]
  · rw [repl_cons, if_neg (fun h => hc ((List.cons_prefix_cons.mp h.2).1.symm)), if_neg hc]

theorem plus_notin_repl (r : Str) (hr : ('+' : Char) ∉ r) :
    ∀ s : Str, ('+' : Char) ∉ repl ("+".data) r s := by
  intro s
  induction s with
  | nil => rw [repl_nil]; simp
  | cons c cs ih =>
    rw [repl_plus_cons]
    by_cases hc : c = '+'
    · rw [if_pos hc]
      intro h
      rcases List.mem_append.mp h with h1 | h2
      · exact hr h1
      · exact ih h2
    · rw [if_neg hc]
      intro h
      rcases List.mem_cons.mp h with h1 | h2
      · exact hc h1.symm
      · exact ih h2

theorem pre_no_create : ∀ (cs n' : Str),
    (∀ a ∈ n', a ≠ '+' ∧ a ≠ '-') → ¬ n' <+: cs →
    ¬ n' <+: repl ("+".data) ("-or-later".data) cs := by
  intro cs
  induction cs with
  | nil =>
    intro n' _ hnp
    rw [repl_nil]
    exact hnp
  | cons c cs' ih =>
    intro n' hch hnp
    rw [repl_plus_cons]
    by_cases hc : c = '+'
    · rw [if_pos hc]
      intro habs
      cases n' with
      | nil => exact hnp List.nil_prefix
      | cons a n'' =>
        have hhead : (("-or-later".data) ++ repl ("+".data) ("-or-later".data) cs')
            = '-' :: (("or-later".data) ++ repl ("+".data) ("-or-later".data) cs') := rfl
        rw [hhead] at habs
        obtain ⟨ha, -⟩ := List.cons_prefix_cons.mp habs
        exact (hch a (by simp)).2 ha
    · rw [if_neg hc]
      intro habs
      cases n' with
      | nil => exact hnp List.nil_prefix
      | cons a n'' =>
        obtain ⟨ha, hn''⟩ := List.cons_prefix_cons.mp habs
        have hnp' : ¬ n'' <+: cs' := by
          intro hx
          exact hnp (by rw [ha]; exact List.cons_prefix_cons.mpr ⟨rfl, hx⟩)
        exact ih n'' (fun b hb => hch b (by simp [hb])) hnp' hn''

theorem plus_no_create {n : Str}
    (h1 : ∀ a ∈ n, a ≠ '+' ∧ a ≠ '-') (h2 : ('r' : Char) ∉ n)
    (h3 : ¬ n <:+: ("-or-later".data)) :
    ∀ s : Str, ¬ n <:+: s → ¬ n <:+: repl ("+".data) ("-or-later".data) s := by
  intro s
  induction s with
  | nil =>
    intro h
    rw [repl_nil]
    exact h
  | cons c cs ih =>
    intro hno
    have hno' : ¬ n <:+: cs := fun hx => hno (List.infix_cons hx)
    rw [repl_plus_cons]
    by_cases hc : c = '+'
    · rw [if_pos hc]
      intro habs
      rcases inf_append_split ("-or-later".data) habs with hA | hB | ⟨n₁, n₂, heq, hn₁, _, hsuf, -⟩
      · exact h3 hA
      · exact ih hno' hB
      · have hlast : ("-or-later".data).getLast? = n₁.getLast? := suf_last hn₁ hsuf
        have hrn : ('r' : Char) ∈ n₁ := by
          apply last_mem
          rw [← hlast]
          decide
        exact h2 (heq ▸ List.mem_append.mpr (Or.inl hrn))
    · rw [if_neg hc]
      intro habs
      rcases List.infix_cons_iff.mp habs with hp | hi
      · cases n with
        | nil => exact hno List.nil_infix
        | cons a n'' =>
          obtain ⟨ha, hn''⟩ := List.cons_prefix_cons.mp hp
          have hnp : ¬ n'' <+: cs := by
            intro hx
            exact hno (by rw [ha]; exact (List.cons_prefix_cons.mpr ⟨rfl, hx⟩).isInfix)
          exact pre_no_create cs n'' (fun b hb => h1 b (by simp [hb])) hnp hn''
      · exact ih hno' hi

theorem pre_preserve (R : Str) : ∀ (cs n' : Str), ('+' : Char) ∉ n' → n' <+: cs →
    n' <+: repl ("+".data) R cs := by
  intro cs
  induction cs with
  | nil =>
    intro n' _ hp
    rw [List.prefix_nil.mp hp, repl_nil]
  | cons c cs' ih =>
    intro n' hplus hp
    cases n' with
    | nil => exact List.nil_prefix
    | cons a n'' =>
      obtain ⟨ha, hn''⟩ := List.cons_prefix_cons.mp hp
      have hc : c ≠ '+' := by
        rw [← ha]
        exact fun hx => hplus (by simp [hx])
      rw [repl_plus_cons, if_neg hc]
      exact List.cons_prefix_cons.mpr ⟨ha, ih n'' (fun hb => hplus (by simp [hb])) hn''⟩

theorem inf_preserve (R : Str) {n : Str} (h : ('+' : Char) ∉ n) :
    ∀ s : Str, n <:+: s → n <:+: repl ("+".data) R s := by
  intro s
  induction s with
  | nil =>
    intro hx
    rw [List.infix_nil.mp hx]
    exact List.nil_infix
  | cons c cs ih =>
    intro hx
    rcases List.infix_cons_iff.mp hx with hp | hi
    · cases n with
      | nil => exact List.nil_infix
      | cons a n'' =>
        obtain ⟨ha, hn''⟩ := List.cons_prefix_cons.mp hp
        have hc : c ≠ '+' := by
          rw [← ha]
          exact fun hz => h (by simp [hz])
        rw [repl_plus_cons, if_neg hc]
        exact (List.cons_prefix_cons.mpr
          ⟨ha, pre_preserve R cs n'' (fun hb => h (by simp [hb])) hn''⟩).isInfix
    · have hrec := ih hi
      rw [repl_plus_cons]
      by_cases hc : c = '+'
      · rw [if_pos hc]
        exact hrec.trans (List.suffix_append R _).isInfix
      · rw [if_neg hc]
        exact List.infix_cons hrec

theorem repl_contains_aux (p r : Str) (hp : p ≠ []) :
    ∀ (n : Nat) (s : Str), s.length ≤ n → p <:+: s → r <:+: repl p r s := by
  intro n
  induction n with
  | zero =>
    intro s hlen hocc
    have hs : s = [] := List.length_eq_zero.mp (Nat.le_zero.mp hlen)
    subst hs
    exact absurd (List.infix_nil.mp hocc) hp
  | succ n ih =>
    intro s hlen hocc
    cases s with
    | nil => exact absurd (List.infix_nil.mp hocc) hp
    | cons c cs =>
      rw [repl_cons]
      by_cases hm : p ≠ [] ∧ p <+: (c :: cs)
      · rw [if_pos hm]
        exact (List.prefix_append r _).isInfix
      · rw [if_neg hm]
        have hnp : ¬ p <+: (c :: cs) := fun hx => hm ⟨hp, hx⟩
        rcases List.infix_cons_iff.mp hocc with h1 | h2
        · exact absurd h1 hnp
        · have hlen' : cs.length ≤ n := by
            simp only [List.length_cons] at hlen
            omega
          exact List.infix_cons (ih cs hlen' h2)

theorem repl_contains (p r : Str) (hp : p ≠ []) (s : Str) (h : p <:+: s) :
    r <:+: repl p r s :=
  repl_contains_aux p r hp s.length s (le_refl _) h

theorem dw_head (p : Char → Bool) : ∀ (l : Str) (c : Char),
    (l.dropWhile p).head? = some c → p c = false := by
  intro l
  induction l with
  | nil => intro c hc; simp at hc
  | cons a t ih =>
    intro c hc
    rw [List.dropWhile_cons] at hc
    by_cases hpa : p a
    · rw [if_pos hpa] at hc
      exact ih c hc
    · rw [if_neg hpa] at hc
      simp at hc
      subst hc
      simpa using hpa

theorem strip_of_nice {l : Str} (h : NiceEnds l) : strip l = l := by
  obtain ⟨hh, hl⟩ := h
  have h1 : l.dropWhile Char.isWhitespace = l := by
    cases l with
    | nil => rfl
    | cons c cs =>
      rw [List.dropWhile_cons, if_neg]
      simp [hh c rfl]
  have h2 : l.reverse.dropWhile Char.isWhitespace = l.reverse := by
    cases hr : l.reverse with
    | nil => rfl
    | cons c cs =>
      rw [List.dropWhile_cons, if_neg]
      have hlc : l.getLast? = some c := by
        rw [← List.head?_reverse, hr]
        rfl
      simp [hl c hlc]
  rw [strip, h1, h2, List.reverse_reverse]

theorem nice_strip (s : Str) : NiceEnds (strip s) := by
  constructor
  · intro c hc
    rw [strip, List.head?_reverse] at hc
    have hw : ((s.dropWhile Char.isWhitespace).reverse).dropWhile Char.isWhitespace ≠ [] := by
      intro hz
      rw [hz] at hc
      simp at hc
    have h2 := suf_last hw (List.dropWhile_suffix Char.isWhitespace)
    rw [hc, List.getLast?_reverse] at h2
    simpa using dw_head Char.isWhitespace s c h2
  · intro c hc
    rw [strip, List.getLast?_reverse] at hc
    simpa using dw_head Char.isWhitespace _ c hc

theorem repl_ne_nil (p r : Str) (hr : r ≠ []) (s : Str) (hs : s ≠ []) :
    repl p r s ≠ [] := by
  cases s with
  | nil => exact absurd rfl hs
  | cons c cs =>
    rw [repl_cons]
    by_cases hm : p ≠ [] ∧ p <+: (c :: cs)
    · rw [if_pos hm]
      simp [hr]
    · rw [if_neg hm]
      simp

theorem repl_nice_head (p r : Str) (hp : p ≠ []) (hr : r ≠ [])
    (hcase : (∃ c, p.head? = some c ∧ c.isWhitespace = true)
             ∨ (∀ c, r.head? = some c → c.isWhitespace = false))
    (s : Str) (hs : ∀ c, s.head? = some c → c.isWhitespace = false) :
    ∀ c, (repl p r s).head? = some c → c.isWhitespace = false := by
  intro c hc
  cases s with
  | nil => rw [repl_nil] at hc; simp at hc
  | cons a cs =>
    rw [repl_cons] at hc
    by_cases hm : p ≠ [] ∧ p <+: (a :: cs)
    · rw [if_pos hm] at hc
      rcases hcase with ⟨d, hd, hwd⟩ | hrh
      · have hhead := pre_head hp hm.2
        rw [hd] at hhead
        simp at hhead
        rw [← hhead] at hwd
        exact absurd hwd (by simp [hs a rfl])
      · rw [List.head?_append_of_ne_nil r hr] at hc
        exact hrh c hc
    · rw [if_neg hm] at hc
      simp at hc
      rw [← hc]
      exact hs a rfl

theorem repl_nice_last (p r : Str) (hp : p ≠ []) (hr : r ≠ [])
    (hcase : (∃ c, p.getLast? = some c ∧ c.isWhitespace = true)
             ∨ (∀ c, r.getLast? = some c → c.isWhitespace = false)) :
    ∀ (n : Nat) (s : Str), s.length ≤ n →
    (∀ c, s.getLast? = some c → c.isWhitespace = false) →
    ∀ c, (repl p r s).getLast? = some c → c.isWhitespace = false := by
  intro n
  induction n with
  | zero =>
    intro s hlen _ c hc
    have hs : s = [] := List.length_eq_zero.mp (Nat.le_zero.mp hlen)
    subst hs
    rw [repl_nil] at hc
    simp at hc
  | succ n ih =>
    intro s hlen hsl c hc
    cases s with
    | nil => rw [repl_nil] at hc; simp at hc
    | cons a cs =>
      rw [repl_cons] at hc
      by_cases hm : p ≠ [] ∧ p <+: (a :: cs)
      · rw [if_pos hm] at hc
        by_cases hrest : cs.drop (p.length - 1) = []
        · rw [hrest, repl_nil, List.append_nil] at hc
          have hlen2 : p.length = cs.length + 1 := by
            have ha1 := hm.2.length_le
            simp only [List.length_cons] at ha1
            have ha2 : cs.length - (p.length - 1) = 0 := by
              have := congrArg List.length hrest
              simpa [List.length_drop] using this
            have hp1 : 0 < p.length := List.length_pos.mpr hp
            omega
          have hpeq : p = a :: cs := hm.2.eq_of_length (by simp [hlen2])
          rcases hcase with ⟨d, hd, hwd⟩ | hrl
          · rw [hpeq] at hd
            exact absurd hwd (by simp [hsl d hd])
          · exact hrl c hc
        · have hne := repl_ne_nil p r hr _ hrest
          rw [List.getLast?_append_of_ne_nil r hne] at hc
          refine ih (cs.drop (p.length - 1)) ?_ ?_ c hc
          · simp only [List.length_cons] at hlen
            simp only [List.length_drop]
            omega
          · intro d hd
            have hsuf : cs.drop (p.length - 1) <:+ a :: cs :=
              (List.drop_suffix _ cs).trans (List.suffix_cons a cs)
            have := suf_last hrest hsuf
            exact hsl d (this ▸ hd)
      · rw [if_neg hm] at hc
        by_cases hcs : cs = []
        · subst hcs
          rw [repl_nil] at hc
          simp at hc
          rw [← hc]
          exact hsl a (by simp)
        · have hne := repl_ne_nil p r hr cs hcs
          have hstep : (a :: repl p r cs).getLast? = (repl p r cs).getLast? := by
            show ([a] ++ repl p r cs).getLast? = _
            exact List.getLast?_append_of_ne_nil [a] hne
          rw [hstep] at hc
          refine ih cs ?_ ?_ c hc
          · simp only [List.length_cons] at hlen
            omega
          · intro d hd
            have := suf_last hcs (List.suffix_cons a cs)
            exact hsl d (this ▸ hd)

theorem repl_nice (p r : Str) (hp : p ≠ []) (hr : r ≠ [])
    (hch : (∃ c, p.head? = some c ∧ c.isWhitespace = true)
           ∨ (∀ c, r.head? = some c → c.isWhitespace = false))
    (hcl : (∃ c, p.getLast? = some c ∧ c.isWhitespace = true)
           ∨ (∀ c, r.getLast? = some c → c.isWhitespace = false))
    (s : Str) (hs : NiceEnds s) : NiceEnds (repl p r s) :=
  ⟨repl_nice_head p r hp hr hch s hs.1,
   fun c hc => repl_nice_last p r hp hr hcl s.length s (le_refl _) hs.2 c hc⟩

theorem head_cond_of (r : Str) (d : Char) (hd : r.head? = some d)
    (hw : d.isWhitespace = false) :
    ∀ c, r.head? = some c → c.isWhitespace = false := by
  intro c hc
  rw [hd] at hc
  simp at hc
  rw [← hc]
  exact hw

theorem last_cond_of (r : Str) (d : Char) (hd : r.getLast? = some d)
    (hw : d.isWhitespace = false) :
    ∀ c, r.getLast? = some c → c.isWhitespace = false := by
  intro c hc
  rw [hd] at hc
  simp at hc
  rw [← hc]
  exact hw

theorem stageW1_nice {s : Str} (h : NiceEnds s) : NiceEnds (stageW1 s) := by
  unfold stageW1
  split
  · exact repl_nice _ _ (by decide) (by decide) (Or.inl ⟨' ', by decide, by decide⟩)
      (Or.inl ⟨' ', by decide, by decide⟩) s h
  · exact h

theorem stageW2_nice {s : Str} (h : NiceEnds s) : NiceEnds (stageW2 s) := by
  unfold stageW2
  split
  · exact repl_nice _ _ (by decide) (by decide) (Or.inl ⟨' ', by decide, by decide⟩)
      (Or.inl ⟨' ', by decide, by decide⟩) s h
  · exact h

theorem stageW3_nice {s : Str} (h : NiceEnds s) : NiceEnds (stageW3 s) := by
  unfold stageW3
  split
  · exact repl_nice _ _ (by decide) (by decide) (Or.inl ⟨' ', by decide, by decide⟩)
      (Or.inr (last_cond_of _ 'H' (by decide) (by decide))) s h
  · exact h

theorem stageP_nice {s : Str} (h : NiceEnds s) : NiceEnds (stageP s) := by
  unfold stageP
  split
  · exact repl_nice _ _ (by decide) (by decide)
      (Or.inr (head_cond_of _ '-' (by decide) (by decide)))
      (Or.inr (last_cond_of _ 'r' (by decide) (by decide))) s h
  · exact h

theorem synCases (s : Str) : synLookup s = s ∨
    synLookup s = ("GPL-3.0-or-later".data) ∨ synLookup s = ("GPL-2.0-or-later".data) ∨
    synLookup s = ("LGPL-3.0-or-later".data) ∨ synLookup s = ("LGPL-2.1-or-later".data) := by
  unfold synLookup
  split_ifs <;> simp

theorem syn_self_space {u : Str} (h : (' ' : Char) ∈ u) : synLookup u = u := by
  unfold synLookup
  split_ifs with h1 h2 h3 h4
  · subst h1; exact absurd h (by decide)
  · subst h2; exact absurd h (by decide)
  · subst h3; exact absurd h (by decide)
  · subst h4; exact absurd h (by decide)
  · rfl

theorem syn_self_plus {u : Str} (h : ('+' : Char) ∈ u → ("-or-later".data) <:+: u) :
    synLookup u = u := by
  unfold synLookup
  split_ifs with h1 h2 h3 h4
  · subst h1; exact absurd (h (by decide)) (by decide)
  · subst h2; exact absurd (h (by decide)) (by decide)
  · subst h3; exact absurd (h (by decide)) (by decide)
  · subst h4; exact absurd (h (by decide)) (by decide)
  · rfl

theorem nice_normalize (s : Str) : NiceEnds (normalize_symbol s) := by
  by_cases hs : s = []
  · subst hs
    constructor <;> intro c hc <;> simp [normalize_symbol] at hc
  · rw [normalize_symbol_stages s hs]
    have h4 := stageP_nice (stageW3_nice (stageW2_nice (stageW1_nice (nice_strip s))))
    rcases synCases (stageP (stageW3 (stageW2 (stageW1 (strip s)))))
      with he | he | he | he | he <;> rw [he]
    · exact h4
    · exact ⟨head_cond_of _ 'G' (by decide) (by decide),
             last_cond_of _ 'r' (by decide) (by decide)⟩
    · exact ⟨head_cond_of _ 'G' (by decide) (by decide),
             last_cond_of _ 'r' (by decide) (by decide)⟩
    · exact ⟨head_cond_of _ 'L' (by decide) (by decide),
             last_cond_of _ 'r' (by decide) (by decide)⟩
    · exact ⟨head_cond_of _ 'L' (by decide) (by decide),
             last_cond_of _ 'r' (by decide) (by decide)⟩

theorem strip_normalize (s : Str) : strip (normalize_symbol s) = normalize_symbol s :=
  strip_of_nice (nice_normalize s)

theorem plus_invariant (s : Str) :
    ('+' : Char) ∈ normalize_symbol s → ("-or-later".data) <:+: normalize_symbol s := by
  by_cases hs : s = []
  · subst hs
    intro h
    simp [normalize_symbol] at h
  · rw [normalize_symbol_stages s hs]
    rcases synCases (stageP (stageW3 (stageW2 (stageW1 (strip s)))))
      with he | he | he | he | he <;> rw [he]
    · unfold stageP
      split_ifs with hg
      · intro hmem
        exact absurd hmem (plus_notin_repl _ (by decide) _)
      · intro hmem
        by_contra hno
        exact hg ⟨(infix_singleton_iff '+' _).mpr hmem, hno⟩
    · intro _; decide
    · intro _; decide
    · intro _; decide
    · intro _; decide

theorem with_invariant (s : Str) :
    (" with".data) <:+: normalize_symbol s → (" WITH".data) <:+: normalize_symbol s := by
  by_cases hs : s = []
  · intro h
    rw [hs] at h
    rw [show normalize_symbol ([] : Str) = [] from rfl] at h
    exact absurd (List.infix_nil.mp h) (by decide)
  · rw [normalize_symbol_stages s hs]
    generalize stageW2 (stageW1 (strip s)) = c2
    unfold stageW3
    by_cases hg : (" with".data) <:+: c2 ∧ ¬ (" WITH".data) <:+: c2
    · rw [if_pos hg]
      have hW : (" WITH".data) <:+: repl (" with".data) (" WITH".data) c2 :=
        repl_contains _ _ (by decide) _ hg.1
      intro _hx
      have hW4 : (" WITH".data) <:+: stageP (repl (" with".data) (" WITH".data) c2) := by
        unfold stageP
        split_ifs with hgp
        · exact inf_preserve _ (by decide) _ hW
        · exact hW
      rw [syn_self_space (infix_mem hW4 (by decide))]
      exact hW4
    · rw [if_neg hg]
      by_cases hWc : (" WITH".data) <:+: c2
      · intro _hx
        have hW4 : (" WITH".data) <:+: stageP c2 := by
          unfold stageP
          split_ifs with hgp
          · exact inf_preserve _ (by decide) _ hWc
          · exact hWc
        rw [syn_self_space (infix_mem hW4 (by decide))]
        exact hW4
      · have hwc : ¬ (" with".data) <:+: c2 := fun hx => hg ⟨hx, hWc⟩
        have hnc : ¬ (" with".data) <:+: stageP c2 := by
          unfold stageP
          split_ifs with hgp
          · exact plus_no_create (by decide) (by decide) (by decide) c2 hwc
          · exact hwc
        rcases synCases (stageP c2) with he | he | he | he | he <;> rw [he]
        · intro habs; exact absurd habs hnc
        · intro habs; exact absurd habs (by decide)
        · intro habs; exact absurd habs (by decide)
        · intro habs; exact absurd habs (by decide)
        · intro habs; exact absurd habs (by decide)

/-- C4 counterexample: normalize_symbol is not idempotent — on
"a with with b" the first pass yields "a WITH with b" (the second
occurrence of " with " overlaps the first and is skipped by the
left-to-right scan, and the rewritten text ends in a space that recreates
" with "), so the second pass rewrites again. -/
theorem claim_C4_counterexample :
    normalize_symbol (normalize_symbol ("a with with b".data))
      ≠ normalize_symbol ("a with with b".data) := by decide

/-- C4 (amended): normalize_symbol is idempotent on every input whose
normal form no longer contains " with " or " With " (space-flanked
lowercase/capitalized with); this covers all inputs with repeated "+"
occurrences and all inputs with at most one "with" word, but not inputs
like "a with with b", where the rewrite recreates a space-flanked "with"
and a second pass changes the string again. -/
theorem claim_C4 (s : Str)
    (h1 : ¬ (" with ".data) <:+: normalize_symbol s)
    (h2 : ¬ (" With ".data) <:+: normalize_symbol s) :
    normalize_symbol (normalize_symbol s) = normalize_symbol s := by
  by_cases ht : normalize_symbol s = []
  · rw [ht]
    rfl
  · rw [normalize_symbol_stages (normalize_symbol s) ht, strip_normalize]
    have e1 : stageW1 (normalize_symbol s) = normalize_symbol s := by
      unfold stageW1
      rw [if_neg h1]
    have e2 : stageW2 (normalize_symbol s) = normalize_symbol s := by
      unfold stageW2
      rw [if_neg h2]
    have e3 : stageW3 (normalize_symbol s) = normalize_symbol s := by
      unfold stageW3
      rw [if_neg]
      intro hx
      exact hx.2 (with_invariant s hx.1)
    have e4 : stageP (normalize_symbol s) = normalize_symbol s := by
      unfold stageP
      rw [if_neg]
      intro hx
      exact hx.2 (plus_invariant s ((infix_singleton_iff '+' _).mp hx.1))
    rw [e1, e2, e3, e4]
    exact syn_self_plus (fun hm => plus_invariant s hm)

/-- C4 witness: idempotence at "A with B" (one "with" occurrence) and at
a "+" spelling. -/
theorem claim_C4_witness :
    (¬ (" with ".data) <:+: normalize_symbol ("A with B".data)) ∧
    (¬ (" With ".data) <:+: normalize_symbol ("A with B".data)) ∧
    normalize_symbol (normalize_symbol ("A with B".data))
      = normalize_symbol ("A with B".data) ∧
    normalize_symbol (normalize_symbol ("GPL-3.0+".data))
      = normalize_symbol ("GPL-3.0+".data) := by
  refine ⟨by decide, by decide, claim_C4 ("A with B".data) (by decide) (by decide),
    claim_C4 ("GPL-3.0+".data) (by decide) (by decide)⟩
